import Mathlib

/-!
Verification of the Upwork job analyzer bot (`src/main.py`, `src/db.py`).

The Python source is shallowly embedded: every Python string helper used
by the handlers (`str.strip`, `str.split(",")`, `str.lower`, the regexes
`[^\d]`, `/jobs/~([^/?]+)`, `^https?://`, substring tests) is modelled as
an executable function on Lean `String`/`List Char`, Python `dict`s become
association lists, Python `set`s become `Finset`s, and the handlers become
pure state-transition functions.  The float expression in
`calculate_match` is modelled by exact IEEE-754 binary64 arithmetic
(round-to-nearest, ties-to-even) on rationals.
-/

/-! ### Python string primitives -/

/-- Python `str.strip()` on a list of characters: drop leading and trailing
whitespace. -/
def pyStripChars (l : List Char) : List Char :=
  ((l.dropWhile Char.isWhitespace).reverse.dropWhile Char.isWhitespace).reverse

/-- Python `str.strip()`. -/
def pyStrip (s : String) : String :=
  String.mk (pyStripChars s.toList)

/-- Python `str.lower()` (ASCII range, which is all the source relies on). -/
def pyLower (s : String) : String :=
  String.mk (s.toList.map Char.toLower)

/-- Python `text.split(",")`: split a character list at every comma,
keeping empty pieces. -/
def splitCommaChars : List Char → List (List Char)
  | [] => [[]]
  | c :: rest =>
    match splitCommaChars rest with
    | [] => [[c]]
    | h :: t => if c = ',' then [] :: h :: t else (c :: h) :: t

/-- Python `text.split(",")` on strings. -/
def pySplitComma (s : String) : List String :=
  (splitCommaChars s.toList).map String.mk

/-- Python `re.sub(r"[^\d]", "", text)`: keep only decimal digits. -/
def stripNonDigits (s : String) : String :=
  String.mk (s.toList.filter Char.isDigit)

/-- Python `int(...)` on a (non-empty) string of decimal digits. -/
def strToNat (s : String) : ℕ :=
  s.toList.foldl (fun n c => n * 10 + (c.toNat - 48)) 0

/-- Python `sub in s` (substring containment) on character lists. -/
def containsSub (sub : List Char) : List Char → Bool
  | [] => sub.isEmpty
  | c :: rest => sub.isPrefixOf (c :: rest) || containsSub sub rest

/-- Python `sub in s` on strings. -/
def pyContains (s sub : String) : Bool :=
  containsSub sub.toList s.toList

/-- The regex `^https?://` of the `analyze_job` message filter. -/
def isUrlText (s : String) : Bool :=
  "http://".toList.isPrefixOf s.toList || "https://".toList.isPrefixOf s.toList

/-- First whitespace-delimited word of a message, used by the `Command`
filters. -/
def firstWord (s : String) : String :=
  String.mk (s.toList.takeWhile (fun c => c ≠ ' '))

/-- Whether a message triggers aiogram's `Command(name)` filter. -/
def isCommandMsg (text name : String) : Bool :=
  firstWord text = "/" ++ name

/-! ### IEEE-754 binary64 model for `calculate_match`

`calculate_match` computes `int((len(common) / len(job_skills)) * 100)`.
Python evaluates `/` and `*` in double precision with round-to-nearest,
ties-to-even.  A positive double value is represented here as a pair
`(m, e) : ℕ × ℤ` with value `m * 2 ^ e`. -/

/-- `natLog2fuel fuel n` computes `⌊log₂ n⌋` by repeated halving,
structurally on `fuel` (any `fuel ≥ n` is enough). -/
def natLog2fuel : ℕ → ℕ → ℕ
  | 0, _ => 0
  | fuel + 1, n => if 2 ≤ n then natLog2fuel fuel (n / 2) + 1 else 0

/-- `⌊log₂ n⌋` for `n ≥ 1`. -/
def natLog2 (n : ℕ) : ℕ := natLog2fuel n n

/-- `⌊log₂ (num / den)⌋` for a positive rational `num / den`. -/
def floorLog2 (num den : ℕ) : ℤ :=
  if den * 2 ^ natLog2 num ≤ num * 2 ^ natLog2 den then (natLog2 num : ℤ) - natLog2 den
  else (natLog2 num : ℤ) - natLog2 den - 1

/-- Round the rational `num / den` to the nearest integer, ties to even. -/
def roundHalfEven (num den : ℕ) : ℕ :=
  if 2 * (num % den) < den then num / den
  else if den < 2 * (num % den) then num / den + 1
  else if (num / den) % 2 = 0 then num / den else num / den + 1

/-- Scale `num / den` by `2 ^ (52 - k)` staying in ℕ numerator/denominator
form. -/
def scaledPair (num den : ℕ) (k : ℤ) : ℕ × ℕ :=
  if k ≤ 52 then (num * 2 ^ (52 - k).toNat, den) else (num, den * 2 ^ (k - 52).toNat)

/-- Round the nonnegative rational `num / den` to the nearest binary64
value (unbounded exponent; all values arising here are normal). -/
def roundPosRat (num den : ℕ) : ℕ × ℤ :=
  if num = 0 then (0, 0)
  else (roundHalfEven (scaledPair num den (floorLog2 num den)).1
          (scaledPair num den (floorLog2 num den)).2,
        floorLog2 num den - 52)

/-- Python `c / t` for nonnegative ints: correctly rounded binary64
quotient. -/
def fdiv (c t : ℕ) : ℕ × ℤ := roundPosRat c t

/-- Numerator/denominator pair representing `100 * (value of x)`. -/
def mulPair (x : ℕ × ℤ) : ℕ × ℕ :=
  if 0 ≤ x.2 then (x.1 * 100 * 2 ^ x.2.toNat, 1) else (x.1 * 100, 2 ^ (-x.2).toNat)

/-- Python `x * 100` in binary64: exact product, rounded once. -/
def fmul100 (x : ℕ × ℤ) : ℕ × ℤ :=
  roundPosRat (mulPair x).1 (mulPair x).2

/-- Python `int(x)` for a nonnegative double `x`: truncation. -/
def truncFloat (x : ℕ × ℤ) : ℕ :=
  if 0 ≤ x.2 then x.1 * 2 ^ x.2.toNat else x.1 / 2 ^ (-x.2).toNat

/-- The exact rational value of a represented double. -/
def fval (x : ℕ × ℤ) : ℚ := (x.1 : ℚ) * 2 ^ x.2

/-- The numeric core of `calculate_match`:
`int((c / t) * 100)` in Python float semantics. -/
def matchScore (c t : ℕ) : ℕ := truncFloat (fmul100 (fdiv c t))

/-! ### Data model and handlers (`src/main.py`) -/

/-- `UserPreferences` dataclass. -/
structure UserPreferences where
  skills : Finset String
  min_budget : Option ℕ := none
  preferred_duration : Option String := none
deriving DecidableEq

/-- The three values of `EXPECTING_FIELD[user_id]`. -/
inductive PrefField
  | skills
  | budget
  | duration
deriving DecidableEq

/-- Outgoing messages of `handle_pref_input` (texts abstracted to kinds). -/
inductive PrefReply
  | savedSkills
  | savedBudget
  | savedDuration
  | invalidBudget
deriving DecidableEq

/-- `calculate_match(job_skills, user_skills)` from `src/main.py`:
`0` for an empty job-skill set, else `int((len(common)/len(job_skills))*100)`
in Python float semantics. -/
def calculate_match {α : Type} [DecidableEq α] (job_skills user_skills : Finset α) : ℕ :=
  if job_skills = ∅ then 0
  else matchScore (job_skills ∩ user_skills).card job_skills.card

/-- The three verdicts rendered by `build_response`. -/
inductive Verdict
  | good
  | bad
  | unclear
deriving DecidableEq

/-- The verdict conditional at the top of `build_response`. -/
def build_response_verdict (match_percent : ℕ) : Verdict :=
  if 70 ≤ match_percent then .good
  else if match_percent ≤ 30 then .bad
  else .unclear

/-- `handle_pref_input`: the user's pending field has been popped as
`field`; `stored` is `USER_PREF_STORE.get(user_id)`.  Returns the new
pending field (if re-armed), the new store entry, and the reply kind. -/
def handle_pref_input (field : PrefField) (stored : Option UserPreferences)
    (msgText : String) : Option PrefField × Option UserPreferences × PrefReply :=
  let text := pyStrip msgText
  let prefs := stored.getD { skills := ∅ }
  match field with
  | .skills =>
    let newSkills :=
      (((pySplitComma text).filter (fun s => pyStrip s ≠ "")).map
        (fun s => pyLower (pyStrip s))).toFinset
    (none, some { prefs with skills := newSkills }, .savedSkills)
  | .budget =>
    let digits := stripNonDigits text
    if digits = "" then (some .budget, stored, .invalidBudget)
    else (none, some { prefs with min_budget := some (strToNat digits) }, .savedBudget)
  | .duration =>
    (none, some { prefs with preferred_duration := some text }, .savedDuration)

/-! ### Message dispatch (aiogram handler registration order) -/

/-- Where the dispatcher sends an incoming text message.  Handlers are
tried in registration order: the four `Command` filters, then
`handle_pref_input` (guarded only by `user_id in EXPECTING_FIELD`), then
`analyze_job` (guarded by `^https?://`); an unmatched message is dropped. -/
inductive Route
  | cmdStart
  | cmdSetSkills
  | cmdSetBudget
  | cmdSetDuration
  | prefInput
  | analyzeJob
  | ignored
deriving DecidableEq

/-- First-match dispatch over the registered message handlers, for a user
whose pending-field status is `expecting`. -/
def dispatchMessage (expecting : Bool) (text : String) : Route :=
  if isCommandMsg text "start" then .cmdStart
  else if isCommandMsg text "set_skills" then .cmdSetSkills
  else if isCommandMsg text "set_budget" then .cmdSetBudget
  else if isCommandMsg text "set_duration" then .cmdSetDuration
  else if expecting then .prefInput
  else if isUrlText text then .analyzeJob
  else .ignored

/-! ### Job correlation registry (`JOB_URLS`, `analyze_job`, `accept_job`) -/

/-- The characters of the marker `/jobs/~`. -/
def jobIdMarker : List Char := "/jobs/~".toList

/-- `re.search(r'/jobs/~([^/?]+)', url)`: scan left to right for the
marker followed by at least one character other than `/` or `?`; capture
the maximal such run. -/
def extractGo : List Char → Option (List Char)
  | [] => none
  | c :: rest =>
    if jobIdMarker.isPrefixOf (c :: rest) then
      let cap := ((c :: rest).drop 7).takeWhile (fun ch => ch != '/' && ch != '?')
      if cap.isEmpty then extractGo rest else some cap
    else extractGo rest

/-- The short job id extracted from a URL, if any. -/
def extract_job_id (url : String) : Option String :=
  (extractGo url.toList).map String.mk

/-- `JOB_URLS[k] = v` on the dict modelled as an association list. -/
def storeSet : List (String × String) → String → String → List (String × String)
  | [], k, v => [(k, v)]
  | (k', v') :: rest, k, v =>
    if k' = k then (k, v) :: rest else (k', v') :: storeSet rest k v

/-- `JOB_URLS.get(k)`. -/
def storeGet : List (String × String) → String → Option String
  | [], _ => none
  | (k', v') :: rest, k => if k' = k then some v' else storeGet rest k

/-- The registry write of `analyze_job`: derive the short id and store the
URL, or fail when the URL has no recognizable job id. -/
def register (st : List (String × String)) (url : String) :
    Option (List (String × String) × String) :=
  (extract_job_id url).map (fun id => (storeSet st id url, id))

/-- `JOB_URLS.get(job_id)` as used by `accept_job`. -/
def resolve (st : List (String × String)) (id : String) : Option String :=
  storeGet st id

/-- Outcome of `analyze_job` up to (and including) the decision to render
the page. -/
inductive AnalyzeResult
  | notUpworkMsg
  | badIdMsg
  | processing (job_id : String)
deriving DecidableEq

/-- `analyze_job` before the scraping call: domain check, id extraction,
registry write.  The final `Bool` records whether the handler goes on to
call `parse_upwork_job` (the render/extraction request). -/
def analyze_job (st : List (String × String)) (msgText : String) :
    List (String × String) × AnalyzeResult × Bool :=
  let url := pyStrip msgText
  if !(pyContains url "upwork.com" || pyContains url "www.upwork.com") then
    (st, .notUpworkMsg, false)
  else
    match extract_job_id url with
    | none => (st, .badIdMsg, false)
    | some id => (storeSet st id url, .processing id, true)

/-! ### Field extraction (`parse_upwork_job`)

`BeautifulSoup` queries are abstracted: a `Dom` records, for each selector
used by the source, the `get_text()` payload of the selected element
(`none` when `select_one` finds nothing), and the raw texts of the `a`
tags inside the skills section (`none` when the section is absent). -/

structure Dom where
  title_el : Option String
  fixed_price_el : Option String
  expertise_el : Option String
  briefcase_el : Option String
  local_el : Option String
  skills_section : Option (List String)
  posted_el : Option String

/-- The job record returned by `parse_upwork_job`. -/
structure JobRecord where
  title : String
  budget : ℕ
  skills : Finset String
  experience : Option String
  project_type : Option String
  location_type : Option String
  posted : Option String
deriving DecidableEq

/-- `parse_upwork_job` field extraction from the rendered DOM
(`get_text(strip=True)` modelled as `pyStrip`). -/
def parse_upwork_job (dom : Dom) : JobRecord where
  title :=
    match dom.title_el with
    | some t => pyStrip t
    | none => "No title"
  budget :=
    match dom.fixed_price_el with
    | some t => strToNat (stripNonDigits (pyStrip t))
    | none => 0
  skills :=
    match dom.skills_section with
    | some tags =>
      ((tags.map (fun t => pyLower (pyStrip t))).filter (fun s => s ≠ "")).toFinset
    | none => ∅
  experience := dom.expertise_el.map pyStrip
  project_type := dom.briefcase_el.map pyStrip
  location_type := dom.local_el.map pyStrip
  posted := dom.posted_el.map pyStrip

/-! ### Helper lemmas: registry -/

theorem storeGet_storeSet_self (st : List (String × String)) (k v : String) :
    storeGet (storeSet st k v) k = some v := by
  induction st with
  | nil => simp [storeSet, storeGet]
  | cons hd tl ih =>
    obtain ⟨k', v'⟩ := hd
    by_cases h : k' = k <;> simp [storeSet, storeGet, h, ih]

theorem storeSet_storeSet_self (st : List (String × String)) (k v : String) :
    storeSet (storeSet st k v) k v = storeSet st k v := by
  induction st with
  | nil => simp [storeSet]
  | cons hd tl ih =>
    obtain ⟨k', v'⟩ := hd
    by_cases h : k' = k <;> simp [storeSet, h, ih]

theorem extractGo_mem_marker {l : List Char} {r : List Char}
    (h : extractGo l = some r) : containsSub jobIdMarker l = true := by
  induction l with
  | nil => simp [extractGo] at h
  | cons c rest ih =>
    rw [containsSub]
    cases hp : jobIdMarker.isPrefixOf (c :: rest) with
    | true => simp
    | false =>
      rw [extractGo] at h
      rw [hp] at h
      simp only [Bool.false_eq_true, if_false] at h
      simp only [Bool.false_or]
      exact ih h

theorem extract_job_id_eq_none_of_not_contains {url : String}
    (h : pyContains url "/jobs/~" = false) : extract_job_id url = none := by
  unfold pyContains at h
  unfold extract_job_id
  cases hgo : extractGo url.toList with
  | none => rfl
  | some r =>
    have hc := extractGo_mem_marker hgo
    unfold jobIdMarker at hc
    rw [hc] at h
    cases h

/-! ### Helper lemmas: characters and digits -/

theorem mem_of_mem_pyStripChars {c : Char} {l : List Char}
    (h : c ∈ pyStripChars l) : c ∈ l := by
  unfold pyStripChars at h
  rw [List.mem_reverse] at h
  have h2 : c ∈ (l.dropWhile Char.isWhitespace).reverse :=
    (List.dropWhile_sublist Char.isWhitespace).mem h
  rw [List.mem_reverse] at h2
  exact (List.dropWhile_sublist Char.isWhitespace).mem h2

theorem toLower_not_upperAscii (c : Char) :
    ¬(65 ≤ (Char.toLower c).toNat ∧ (Char.toLower c).toNat ≤ 90) := by
  have hdef : Char.toLower c =
      if c.toNat ≥ 65 ∧ c.toNat ≤ 90 then Char.ofNat (c.toNat + 32) else c := rfl
  rw [hdef]
  split_ifs with hc
  · have hv : (c.toNat + 32).isValidChar := Or.inl (by omega)
    have hval : (Char.ofNat (c.toNat + 32)).toNat = c.toNat + 32 := by
      unfold Char.ofNat
      rw [dif_pos hv]
      rfl
    rw [hval]
    omega
  · omega

/-- C2: the verdict conditional renders Good iff the match percentage is
at least 70, Bad iff it is at most 30, and Unclear on the 31–69 band;
70 maps to Good and 30 maps to Bad. -/
theorem claim_C2 (p : ℕ) :
    (build_response_verdict p = Verdict.good ↔ 70 ≤ p) ∧
    (build_response_verdict p = Verdict.bad ↔ p ≤ 30) ∧
    (31 ≤ p → p ≤ 69 → build_response_verdict p = Verdict.unclear) ∧
    build_response_verdict 70 = Verdict.good ∧
    build_response_verdict 30 = Verdict.bad := by
  refine ⟨?_, ?_, ?_, by decide, by decide⟩ <;>
    unfold build_response_verdict <;>
    split_ifs with h1 h2 <;> simp_all <;> omega

/-- Witness for C2 at concrete percentages. -/
theorem witness_C2 :
    build_response_verdict 50 = Verdict.unclear ∧
    build_response_verdict 70 = Verdict.good ∧
    build_response_verdict 30 = Verdict.bad :=
  ⟨(claim_C2 50).2.2.1 (by norm_num) (by norm_num),
   (claim_C2 70).2.2.2.1, (claim_C2 30).2.2.2.2⟩

/-- Counterexample to C3: a target-site job URL sent by a user with a
pending preference field is dispatched to `handle_pref_input` (the
pending-field handler is registered before the URL handler), not handled
as a listing submission. -/
theorem counterexample_C3 :
    dispatchMessage true "https://www.upwork.com/jobs/~abc123" = Route.prefInput ∧
    dispatchMessage true "https://www.upwork.com/jobs/~abc123" ≠ Route.analyzeJob ∧
    pyContains "https://www.upwork.com/jobs/~abc123" "upwork.com" = true := by
  decide

/-- C3 (amended): for non-command messages, a user with a pending field
has every message (URL or not) routed to the preference handler; without
a pending field, an `http(s)://` message goes to the listing handler and
anything else is ignored. -/
theorem claim_C3 (expecting : Bool) (text : String)
    (h1 : isCommandMsg text "start" = false)
    (h2 : isCommandMsg text "set_skills" = false)
    (h3 : isCommandMsg text "set_budget" = false)
    (h4 : isCommandMsg text "set_duration" = false) :
    (expecting = true → dispatchMessage expecting text = Route.prefInput) ∧
    (expecting = false → isUrlText text = true →
      dispatchMessage expecting text = Route.analyzeJob) ∧
    (expecting = false → isUrlText text = false →
      dispatchMessage expecting text = Route.ignored) := by
  unfold dispatchMessage
  refine ⟨fun he => by simp [h1, h2, h3, h4, he],
    fun he hu => by simp [h1, h2, h3, h4, he, hu],
    fun he hu => by simp [h1, h2, h3, h4, he, hu]⟩

/-- Witness for C3 at concrete messages. -/
theorem witness_C3 :
    dispatchMessage true "hello there" = Route.prefInput ∧
    dispatchMessage false "https://www.upwork.com/jobs/~a" = Route.analyzeJob ∧
    dispatchMessage false "hello there" = Route.ignored :=
  ⟨(claim_C3 true "hello there" (by decide) (by decide) (by decide) (by decide)).1 rfl,
   (claim_C3 false "https://www.upwork.com/jobs/~a"
     (by decide) (by decide) (by decide) (by decide)).2.1 rfl (by decide),
   (claim_C3 false "hello there"
     (by decide) (by decide) (by decide) (by decide)).2.2 rfl (by decide)⟩

/-- C4: a skills reply is split on commas, each piece trimmed and
lowercased, empty pieces dropped, the result replaces the skill set and
the pending state is cleared; `"Python, Django, python"` yields exactly
`{"python", "django"}`. -/
theorem claim_C4 (stored : Option UserPreferences) (msgText : String) :
    (handle_pref_input PrefField.skills stored msgText).1 = none ∧
    (∃ p, (handle_pref_input PrefField.skills stored msgText).2.1 = some p ∧
      ∀ s, s ∈ p.skills ↔
        ∃ piece ∈ pySplitComma (pyStrip msgText),
          pyStrip piece ≠ "" ∧ s = pyLower (pyStrip piece)) ∧
    (∃ p, (handle_pref_input PrefField.skills stored "Python, Django, python").2.1 = some p ∧
      p.skills = {"python", "django"}) := by
  refine ⟨rfl, ⟨_, rfl, fun s => ?_⟩, ⟨_, rfl, ?_⟩⟩
  · simp only [List.mem_toFinset, List.mem_map, List.mem_filter, decide_eq_true_eq]
    constructor
    · rintro ⟨a, ⟨ha, hne⟩, rfl⟩
      exact ⟨a, ha, hne, rfl⟩
    · rintro ⟨a, ha, hne, rfl⟩
      exact ⟨a, ⟨ha, hne⟩, rfl⟩
  · show (((pySplitComma (pyStrip "Python, Django, python")).filter
        (fun s => pyStrip s ≠ "")).map (fun s => pyLower (pyStrip s))).toFinset
      = {"python", "django"}
    decide

/-- C5: a budget reply that leaves a non-empty digit string after
stripping non-digits stores that integer and clears the pending state;
otherwise the pending state is re-armed, a validation reply is emitted,
and the stored preferences are untouched. -/
theorem claim_C5 (stored : Option UserPreferences) (msgText : String) :
    (stripNonDigits (pyStrip msgText) ≠ "" →
      handle_pref_input PrefField.budget stored msgText =
        (none,
         some { stored.getD { skills := ∅ } with
                  min_budget := some (strToNat (stripNonDigits (pyStrip msgText))) },
         PrefReply.savedBudget)) ∧
    (stripNonDigits (pyStrip msgText) = "" →
      handle_pref_input PrefField.budget stored msgText =
        (some PrefField.budget, stored, PrefReply.invalidBudget)) := by
  constructor <;> intro h <;> simp [handle_pref_input, h]

/-- Witness for C5: `"$500 approx"` stores 500; `"abc"` re-arms the
budget state and stores nothing. -/
theorem witness_C5 :
    stripNonDigits (pyStrip "$500 approx") = "500" ∧
    handle_pref_input PrefField.budget none "$500 approx" =
      (none, some { skills := ∅, min_budget := some 500, preferred_duration := none },
       PrefReply.savedBudget) ∧
    handle_pref_input PrefField.budget none "abc" =
      (some PrefField.budget, none, PrefReply.invalidBudget) := by
  refine ⟨by decide, ?_, (claim_C5 none "abc").2 (by decide)⟩
  rw [(claim_C5 none "$500 approx").1 (by decide)]
  decide

/-- C6: once a job URL registers successfully, registering it again
returns the same short id and leaves the registry unchanged, and
resolving the id returns the registered URL exactly. -/
theorem claim_C6 (st st1 : List (String × String)) (url id : String)
    (h : register st url = some (st1, id)) :
    register st1 url = some (st1, id) ∧ resolve st1 id = some url := by
  unfold register at h ⊢
  cases hx : extract_job_id url with
  | none => rw [hx] at h; cases h
  | some j =>
    rw [hx] at h
    simp only [Option.map_some'] at h
    have h' := Option.some.inj h
    have hst : storeSet st j url = st1 := congrArg Prod.fst h'
    have hid : j = id := congrArg Prod.snd h'
    subst hid
    subst hst
    constructor
    · simp [storeSet_storeSet_self]
    · exact storeGet_storeSet_self st j url

/-- Witness for C6: a concrete registration round-trip. -/
theorem witness_C6 :
    register [] "https://www.upwork.com/jobs/~abc123?src=t" =
      some ([("abc123", "https://www.upwork.com/jobs/~abc123?src=t")], "abc123") ∧
    register [("abc123", "https://www.upwork.com/jobs/~abc123?src=t")]
        "https://www.upwork.com/jobs/~abc123?src=t" =
      some ([("abc123", "https://www.upwork.com/jobs/~abc123?src=t")], "abc123") ∧
    resolve [("abc123", "https://www.upwork.com/jobs/~abc123?src=t")] "abc123" =
      some "https://www.upwork.com/jobs/~abc123?src=t" :=
  ⟨by decide,
   (claim_C6 [] [("abc123", "https://www.upwork.com/jobs/~abc123?src=t")]
     "https://www.upwork.com/jobs/~abc123?src=t" "abc123" (by decide)).1,
   (claim_C6 [] [("abc123", "https://www.upwork.com/jobs/~abc123?src=t")]
     "https://www.upwork.com/jobs/~abc123?src=t" "abc123" (by decide)).2⟩

/-- C7: a submitted URL without the `/jobs/~` marker never creates a
registry entry, never triggers the render/extraction request, and is
answered with an immediate error reply. -/
theorem claim_C7 (st : List (String × String)) (msgText : String)
    (h : pyContains (pyStrip msgText) "/jobs/~" = false) :
    (analyze_job st msgText).1 = st ∧
    (analyze_job st msgText).2.2 = false ∧
    ∀ id, (analyze_job st msgText).2.1 ≠ AnalyzeResult.processing id := by
  have hx := extract_job_id_eq_none_of_not_contains h
  cases hor : (pyContains (pyStrip msgText) "upwork.com" ||
      pyContains (pyStrip msgText) "www.upwork.com") <;>
    simp [analyze_job, hor, hx]

/-- Witness for C7: a profile URL on the target site lacks the job
marker. -/
theorem witness_C7 :
    (analyze_job [] "https://www.upwork.com/fl/john").1 = [] ∧
    (analyze_job [] "https://www.upwork.com/fl/john").2.2 = false ∧
    (analyze_job [] "https://www.upwork.com/fl/john").2.1 ≠
      AnalyzeResult.processing "abc123" :=
  ⟨(claim_C7 [] "https://www.upwork.com/fl/john" (by decide)).1,
   (claim_C7 [] "https://www.upwork.com/fl/john" (by decide)).2.1,
   (claim_C7 [] "https://www.upwork.com/fl/john" (by decide)).2.2 "abc123"⟩

/-- C8: extraction substitutes sentinels for every missing or non-numeric
optional field, and every extracted skill is a non-empty, lowercased
string (no ASCII uppercase survives), with `Finset` membership giving
de-duplication. -/
theorem claim_C8 (dom : Dom) :
    (dom.title_el = none → (parse_upwork_job dom).title = "No title") ∧
    (dom.fixed_price_el = none → (parse_upwork_job dom).budget = 0) ∧
    (∀ t, dom.fixed_price_el = some t →
      (∀ c ∈ t.toList, c.isDigit = false) → (parse_upwork_job dom).budget = 0) ∧
    (dom.skills_section = none → (parse_upwork_job dom).skills = ∅) ∧
    (dom.expertise_el = none → (parse_upwork_job dom).experience = none) ∧
    (dom.briefcase_el = none → (parse_upwork_job dom).project_type = none) ∧
    (dom.local_el = none → (parse_upwork_job dom).location_type = none) ∧
    (dom.posted_el = none → (parse_upwork_job dom).posted = none) ∧
    (∀ s ∈ (parse_upwork_job dom).skills,
      s ≠ "" ∧ ∀ c ∈ s.toList, ¬(65 ≤ c.toNat ∧ c.toNat ≤ 90)) := by
  refine ⟨fun h => by simp [parse_upwork_job, h],
    fun h => by simp [parse_upwork_job, h],
    fun t ht hdig => ?_,
    fun h => by simp [parse_upwork_job, h],
    fun h => by simp [parse_upwork_job, h],
    fun h => by simp [parse_upwork_job, h],
    fun h => by simp [parse_upwork_job, h],
    fun h => by simp [parse_upwork_job, h],
    fun s hs => ?_⟩
  · have hfil : (pyStrip t).toList.filter Char.isDigit = [] := by
      rw [List.filter_eq_nil_iff]
      intro c hc
      have := hdig c (mem_of_mem_pyStripChars hc)
      simp [this]
    have hfil' : (pyStrip t).data.filter Char.isDigit = [] := hfil
    simp [parse_upwork_job, ht, stripNonDigits, hfil', strToNat]
  · cases hss : dom.skills_section with
    | none => simp [parse_upwork_job, hss] at hs
    | some tags =>
      simp only [parse_upwork_job, hss, List.mem_toFinset, List.mem_filter,
        List.mem_map, decide_eq_true_eq] at hs
      obtain ⟨⟨a, _, rfl⟩, hne⟩ := hs
      refine ⟨hne, fun c hc => ?_⟩
      have hmap : (pyLower (pyStrip a)).toList = (pyStrip a).toList.map Char.toLower := rfl
      rw [hmap] at hc
      obtain ⟨d, _, rfl⟩ := List.mem_map.mp hc
      exact toLower_not_upperAscii d

/-- Witness for C8 at concrete DOMs: every element absent, and a
non-numeric fixed-price text. -/
theorem witness_C8 :
    (parse_upwork_job ⟨none, none, none, none, none, none, none⟩).title = "No title" ∧
    (parse_upwork_job ⟨none, none, none, none, none, none, none⟩).budget = 0 ∧
    (parse_upwork_job ⟨none, none, none, none, none, none, none⟩).skills = ∅ ∧
    (parse_upwork_job ⟨none, none, none, none, none, none, none⟩).experience = none ∧
    (parse_upwork_job ⟨none, none, none, none, none, none, none⟩).project_type = none ∧
    (parse_upwork_job ⟨none, none, none, none, none, none, none⟩).location_type = none ∧
    (parse_upwork_job ⟨none, none, none, none, none, none, none⟩).posted = none ∧
    (parse_upwork_job ⟨none, some "TBD", none, none, none, none, none⟩).budget = 0 :=
  ⟨(claim_C8 ⟨none, none, none, none, none, none, none⟩).1 rfl,
   (claim_C8 ⟨none, none, none, none, none, none, none⟩).2.1 rfl,
   (claim_C8 ⟨none, none, none, none, none, none, none⟩).2.2.2.1 rfl,
   (claim_C8 ⟨none, none, none, none, none, none, none⟩).2.2.2.2.1 rfl,
   (claim_C8 ⟨none, none, none, none, none, none, none⟩).2.2.2.2.2.1 rfl,
   (claim_C8 ⟨none, none, none, none, none, none, none⟩).2.2.2.2.2.2.1 rfl,
   (claim_C8 ⟨none, none, none, none, none, none, none⟩).2.2.2.2.2.2.2.1 rfl,
   (claim_C8 ⟨none, some "TBD", none, none, none, none, none⟩).2.2.1
     "TBD" rfl (by decide)⟩

/-- Counterexample to C9: the duration reply is stripped of surrounding
whitespace before being stored, so a reply with surrounding whitespace is
not stored character-for-character. -/
theorem counterexample_C9 :
    (handle_pref_input PrefField.duration none " last week ").2.1 =
      some { skills := ∅, min_budget := none, preferred_duration := some "last week" } ∧
    ("last week" : String) ≠ " last week " := by
  decide

/-- C9 (amended): a duration reply is stored after stripping surrounding
whitespace (otherwise unchanged), the other preference fields are
untouched, and the pending state is cleared. -/
theorem claim_C9 (stored : Option UserPreferences) (msgText : String) :
    (handle_pref_input PrefField.duration stored msgText).1 = none ∧
    ∃ p, (handle_pref_input PrefField.duration stored msgText).2.1 = some p ∧
      p.preferred_duration = some (pyStrip msgText) ∧
      p.skills = (stored.getD { skills := ∅ }).skills ∧
      p.min_budget = (stored.getD { skills := ∅ }).min_budget :=
  ⟨rfl, _, rfl, rfl, rfl, rfl⟩

/-! ### Float model: correctness of the base-2 logarithm and rounding -/

theorem natLog2fuel_spec : ∀ fuel n : ℕ, 1 ≤ n → n ≤ fuel →
    2 ^ natLog2fuel fuel n ≤ n ∧ n < 2 ^ (natLog2fuel fuel n + 1) := by
  intro fuel
  induction fuel with
  | zero => intro n h1 h2; omega
  | succ f ih =>
    intro n h1 h2
    rw [natLog2fuel]
    by_cases h : 2 ≤ n
    · rw [if_pos h]
      have hn2 : 1 ≤ n / 2 := by omega
      have hle : n / 2 ≤ f := by omega
      obtain ⟨lo, hi⟩ := ih (n / 2) hn2 hle
      rw [pow_succ] at hi
      constructor
      · rw [pow_succ]
        omega
      · rw [pow_succ, pow_succ]
        omega
    · rw [if_neg h]
      simp only [pow_zero, pow_one]
      omega

theorem natLog2_spec (n : ℕ) (h : 1 ≤ n) :
    2 ^ natLog2 n ≤ n ∧ n < 2 ^ (natLog2 n + 1) :=
  natLog2fuel_spec n n h le_rfl

theorem roundHalfEven_nat_bounds (num den : ℕ) (hd : 1 ≤ den) :
    2 * roundHalfEven num den * den ≤ 2 * num + den ∧
    2 * num ≤ 2 * roundHalfEven num den * den + den ∧
    ((2 * roundHalfEven num den * den = 2 * num + den ∨
      2 * num = 2 * roundHalfEven num den * den + den) →
      roundHalfEven num den % 2 = 0) := by
  have hdm := Nat.div_add_mod num den
  have hmlt : num % den < den := Nat.mod_lt _ (by omega)
  have hg1 : 2 * (num / den) * den = 2 * (den * (num / den)) := by ring
  have hg2 : 2 * (num / den + 1) * den = 2 * (den * (num / den)) + 2 * den := by ring
  unfold roundHalfEven
  split_ifs with h1 h2 h3
  · rw [hg1]
    set q := num / den
    set A := den * q
    set r := num % den
    omega
  · rw [hg2]
    set q := num / den
    set A := den * q
    set r := num % den
    omega
  · rw [hg1]
    set q := num / den
    set A := den * q
    set r := num % den
    omega
  · rw [hg2]
    set q := num / den
    set A := den * q
    set r := num % den
    omega

/-! ### Float model: rational characterization -/

theorem floorLog2_spec (num den : ℕ) (hn : 1 ≤ num) (hd : 1 ≤ den) :
    (2 : ℚ) ^ floorLog2 num den ≤ (num : ℚ) / den ∧
    (num : ℚ) / den < 2 ^ (floorLog2 num den + 1) := by
  obtain ⟨ha1, ha2⟩ := natLog2_spec num hn
  obtain ⟨hb1, hb2⟩ := natLog2_spec den hd
  have hdpos : (0 : ℚ) < den := by exact_mod_cast Nat.lt_of_lt_of_le Nat.zero_lt_one hd
  unfold floorLog2
  split_ifs with hcond
  · constructor
    · rw [zpow_sub₀ (by norm_num : (2:ℚ) ≠ 0), zpow_natCast, zpow_natCast,
        div_le_div_iff₀ (by positivity) hdpos]
      have : (2:ℚ) ^ natLog2 num * den ≤ num * 2 ^ natLog2 den := by
        exact_mod_cast Nat.le_trans (Nat.le_of_eq (Nat.mul_comm _ _)) hcond
      exact this
    · rw [show (natLog2 num : ℤ) - natLog2 den + 1 =
          ((natLog2 num + 1 : ℕ) : ℤ) - natLog2 den by push_cast; ring,
        zpow_sub₀ (by norm_num : (2:ℚ) ≠ 0), zpow_natCast, zpow_natCast,
        div_lt_div_iff₀ hdpos (by positivity)]
      have hnat : num * 2 ^ natLog2 den < 2 ^ (natLog2 num + 1) * den := by
        calc num * 2 ^ natLog2 den
            < 2 ^ (natLog2 num + 1) * 2 ^ natLog2 den :=
              mul_lt_mul_of_pos_right ha2 (Nat.pos_pow_of_pos _ (by omega))
          _ ≤ 2 ^ (natLog2 num + 1) * den := Nat.mul_le_mul_left _ hb1
      exact_mod_cast hnat
  · constructor
    · rw [show (natLog2 num : ℤ) - natLog2 den - 1 =
          (natLog2 num : ℤ) - ((natLog2 den + 1 : ℕ) : ℤ) by push_cast; ring,
        zpow_sub₀ (by norm_num : (2:ℚ) ≠ 0), zpow_natCast, zpow_natCast,
        div_le_div_iff₀ (by positivity) hdpos]
      have hnat : 2 ^ natLog2 num * den ≤ num * 2 ^ (natLog2 den + 1) :=
        Nat.le_trans (Nat.mul_le_mul_right _ ha1)
          (Nat.mul_le_mul_left _ (Nat.le_of_lt hb2))
      exact_mod_cast hnat
    · rw [show (natLog2 num : ℤ) - natLog2 den - 1 + 1 =
          (natLog2 num : ℤ) - natLog2 den by ring,
        zpow_sub₀ (by norm_num : (2:ℚ) ≠ 0), zpow_natCast, zpow_natCast,
        div_lt_div_iff₀ hdpos (by positivity)]
      have hnat : num * 2 ^ natLog2 den < den * 2 ^ natLog2 num := Nat.lt_of_not_le hcond
      have : (num : ℚ) * 2 ^ natLog2 den < den * 2 ^ natLog2 num := by exact_mod_cast hnat
      linarith

theorem scaledPair_fst_pos (num den : ℕ) (k : ℤ) (hn : 1 ≤ num) :
    1 ≤ (scaledPair num den k).1 := by
  unfold scaledPair
  split_ifs
  · exact Nat.one_le_iff_ne_zero.mpr
      (Nat.mul_ne_zero (by omega) (Nat.pos_iff_ne_zero.mp (Nat.pos_pow_of_pos _ (by omega))))
  · exact hn

theorem scaledPair_snd_pos (num den : ℕ) (k : ℤ) (hd : 1 ≤ den) :
    1 ≤ (scaledPair num den k).2 := by
  unfold scaledPair
  split_ifs
  · exact hd
  · exact Nat.one_le_iff_ne_zero.mpr
      (Nat.mul_ne_zero (by omega) (Nat.pos_iff_ne_zero.mp (Nat.pos_pow_of_pos _ (by omega))))

theorem scaledPair_div_eq (num den : ℕ) (k : ℤ) (hd : 1 ≤ den) :
    ((scaledPair num den k).1 : ℚ) / (scaledPair num den k).2 =
      (num : ℚ) / den * 2 ^ (52 - k) := by
  have hdpos : (0 : ℚ) < den := by exact_mod_cast Nat.lt_of_lt_of_le Nat.zero_lt_one hd
  unfold scaledPair
  split_ifs with hk
  · have ht : (((52 - k).toNat : ℤ)) = 52 - k := Int.toNat_of_nonneg (by omega)
    have hp : ((2 : ℚ) ^ (52 - k)) = 2 ^ (52 - k).toNat := by
      rw [← zpow_natCast, ht]
    rw [hp]
    push_cast
    field_simp
  · have ht : (((k - 52).toNat : ℤ)) = k - 52 := Int.toNat_of_nonneg (by omega)
    have hp : ((2 : ℚ) ^ (52 - k)) = (2 ^ (k - 52).toNat)⁻¹ := by
      rw [← zpow_natCast, ht, ← zpow_neg]
      norm_num
    rw [hp]
    push_cast
    rw [div_mul_eq_div_div, div_eq_mul_inv]

theorem roundHalfEven_rat_le (N D : ℕ) (hD : 1 ≤ D) :
    (roundHalfEven N D : ℚ) ≤ N / D + 1 / 2 := by
  have h := (roundHalfEven_nat_bounds N D hD).1
  have hDpos : (0 : ℚ) < D := by exact_mod_cast Nat.lt_of_lt_of_le Nat.zero_lt_one hD
  have key : ((2 * roundHalfEven N D * D : ℕ) : ℚ) ≤ ((2 * N + D : ℕ) : ℚ) := by
    exact_mod_cast h
  push_cast at key
  rw [show (N : ℚ) / D + 1 / 2 = (2 * N + D) / (2 * D) by field_simp; ring,
    le_div_iff₀ (by positivity)]
  linarith

theorem roundHalfEven_rat_ge (N D : ℕ) (hD : 1 ≤ D) :
    (N : ℚ) / D - 1 / 2 ≤ roundHalfEven N D := by
  have h := (roundHalfEven_nat_bounds N D hD).2.1
  have hDpos : (0 : ℚ) < D := by exact_mod_cast Nat.lt_of_lt_of_le Nat.zero_lt_one hD
  have key : ((2 * N : ℕ) : ℚ) ≤ ((2 * roundHalfEven N D * D + D : ℕ) : ℚ) := by
    exact_mod_cast h
  push_cast at key
  rw [show (N : ℚ) / D - 1 / 2 = (2 * N - D) / (2 * D) by field_simp; ring,
    div_le_iff₀ (by positivity)]
  linarith

theorem roundPosRat_snd (num den : ℕ) (hn : 1 ≤ num) :
    (roundPosRat num den).2 = floorLog2 num den - 52 := by
  unfold roundPosRat
  rw [if_neg (by omega)]

theorem roundPosRat_fst (num den : ℕ) (hn : 1 ≤ num) :
    (roundPosRat num den).1 =
      roundHalfEven (scaledPair num den (floorLog2 num den)).1
        (scaledPair num den (floorLog2 num den)).2 := by
  unfold roundPosRat
  rw [if_neg (by omega)]

theorem fval_roundPosRat_eq (num den : ℕ) (hn : 1 ≤ num) :
    fval (roundPosRat num den) =
      ((roundPosRat num den).1 : ℚ) * 2 ^ (floorLog2 num den - 52) := by
  show ((roundPosRat num den).1 : ℚ) * 2 ^ (roundPosRat num den).2 = _
  rw [roundPosRat_snd num den hn]

theorem fval_roundPosRat_le (num den : ℕ) (hn : 1 ≤ num) (hd : 1 ≤ den) :
    fval (roundPosRat num den) ≤
      (num : ℚ) / den + 2 ^ (floorLog2 num den - 53) := by
  set k := floorLog2 num den with hk
  have hz := roundHalfEven_rat_le (scaledPair num den k).1 (scaledPair num den k).2
    (scaledPair_snd_pos num den k hd)
  rw [scaledPair_div_eq num den k hd] at hz
  have hpow : (0 : ℚ) < 2 ^ (k - 52) := zpow_pos (by norm_num) _
  have hmul := mul_le_mul_of_nonneg_right hz (le_of_lt hpow)
  rw [fval_roundPosRat_eq num den hn, roundPosRat_fst num den hn, ← hk]
  calc (roundHalfEven (scaledPair num den k).1 (scaledPair num den k).2 : ℚ) * 2 ^ (k - 52)
      ≤ ((num : ℚ) / den * 2 ^ (52 - k) + 1 / 2) * 2 ^ (k - 52) := hmul
    _ = (num : ℚ) / den + 2 ^ (k - 53) := by
        rw [add_mul, mul_assoc, ← zpow_add₀ (by norm_num : (2:ℚ) ≠ 0),
          show (52 : ℤ) - k + (k - 52) = 0 by ring, zpow_zero, mul_one,
          show k - 53 = -1 + (k - 52) by ring,
          zpow_add₀ (by norm_num : (2:ℚ) ≠ 0)]
        norm_num

theorem fval_roundPosRat_ge (num den : ℕ) (hn : 1 ≤ num) (hd : 1 ≤ den) :
    (num : ℚ) / den - 2 ^ (floorLog2 num den - 53) ≤
      fval (roundPosRat num den) := by
  set k := floorLog2 num den with hk
  have hz := roundHalfEven_rat_ge (scaledPair num den k).1 (scaledPair num den k).2
    (scaledPair_snd_pos num den k hd)
  rw [scaledPair_div_eq num den k hd] at hz
  have hpow : (0 : ℚ) < 2 ^ (k - 52) := zpow_pos (by norm_num) _
  have hmul := mul_le_mul_of_nonneg_right hz (le_of_lt hpow)
  rw [fval_roundPosRat_eq num den hn, roundPosRat_fst num den hn, ← hk]
  calc (num : ℚ) / den - 2 ^ (k - 53)
      = ((num : ℚ) / den * 2 ^ (52 - k) - 1 / 2) * 2 ^ (k - 52) := by
        rw [sub_mul, mul_assoc, ← zpow_add₀ (by norm_num : (2:ℚ) ≠ 0),
          show (52 : ℤ) - k + (k - 52) = 0 by ring, zpow_zero, mul_one,
          show k - 53 = -1 + (k - 52) by ring,
          zpow_add₀ (by norm_num : (2:ℚ) ≠ 0)]
        norm_num
    _ ≤ _ := hmul

theorem roundPosRat_fst_ge (num den : ℕ) (hn : 1 ≤ num) (hd : 1 ≤ den) :
    2 ^ 52 ≤ (roundPosRat num den).1 := by
  set k := floorLog2 num den with hk
  obtain ⟨hl, _⟩ := floorLog2_spec num den hn hd
  have hz := roundHalfEven_rat_ge (scaledPair num den k).1 (scaledPair num den k).2
    (scaledPair_snd_pos num den k hd)
  rw [scaledPair_div_eq num den k hd] at hz
  have hpow : (0 : ℚ) < 2 ^ ((52 : ℤ) - k) := zpow_pos (by norm_num) _
  have h1 : (2 : ℚ) ^ k * 2 ^ ((52 : ℤ) - k) ≤ (num : ℚ) / den * 2 ^ ((52 : ℤ) - k) :=
    mul_le_mul_of_nonneg_right hl (le_of_lt hpow)
  have h2 : (2 : ℚ) ^ k * 2 ^ ((52 : ℤ) - k) = ((2 ^ 52 : ℕ) : ℚ) := by
    rw [← zpow_add₀ (by norm_num : (2:ℚ) ≠ 0), show k + ((52 : ℤ) - k) = 52 by ring]
    norm_num
  have h3 : ((2 ^ 52 : ℕ) : ℚ) <
      ((roundHalfEven (scaledPair num den k).1 (scaledPair num den k).2 : ℕ) : ℚ) + 1 := by
    rw [← h2]
    linarith
  have h4 : (2 ^ 52 : ℕ) <
      roundHalfEven (scaledPair num den k).1 (scaledPair num den k).2 + 1 := by
    exact_mod_cast h3
  rw [roundPosRat_fst num den hn, ← hk]
  omega

theorem roundPosRat_fst_le (num den : ℕ) (hn : 1 ≤ num) (hd : 1 ≤ den) :
    (roundPosRat num den).1 ≤ 2 ^ 53 := by
  set k := floorLog2 num den with hk
  obtain ⟨_, hu⟩ := floorLog2_spec num den hn hd
  have hz := roundHalfEven_rat_le (scaledPair num den k).1 (scaledPair num den k).2
    (scaledPair_snd_pos num den k hd)
  rw [scaledPair_div_eq num den k hd] at hz
  have hpow : (0 : ℚ) < 2 ^ ((52 : ℤ) - k) := zpow_pos (by norm_num) _
  have h1 : (num : ℚ) / den * 2 ^ ((52 : ℤ) - k) < 2 ^ (k + 1) * 2 ^ ((52 : ℤ) - k) :=
    mul_lt_mul_of_pos_right hu hpow
  have h2 : (2 : ℚ) ^ (k + 1) * 2 ^ ((52 : ℤ) - k) = ((2 ^ 53 : ℕ) : ℚ) := by
    rw [← zpow_add₀ (by norm_num : (2:ℚ) ≠ 0), show k + 1 + ((52 : ℤ) - k) = 53 by ring]
    norm_num
  have h3 : ((roundHalfEven (scaledPair num den k).1 (scaledPair num den k).2 : ℕ) : ℚ) <
      ((2 ^ 53 : ℕ) : ℚ) + 1 := by
    rw [← h2] at *
    linarith
  have h4 : roundHalfEven (scaledPair num den k).1 (scaledPair num den k).2 <
      2 ^ 53 + 1 := by
    exact_mod_cast h3
  rw [roundPosRat_fst num den hn, ← hk]
  omega

theorem roundHalfEven_mono_rat (N D N' D' : ℕ) (hD : 1 ≤ D) (hD' : 1 ≤ D')
    (h : (N : ℚ) / D ≤ (N' : ℚ) / D') :
    roundHalfEven N D ≤ roundHalfEven N' D' := by
  by_contra hlt
  push_neg at hlt
  have hDpos : (0 : ℚ) < D := by exact_mod_cast Nat.lt_of_lt_of_le Nat.zero_lt_one hD
  have hDpos' : (0 : ℚ) < D' := by exact_mod_cast Nat.lt_of_lt_of_le Nat.zero_lt_one hD'
  have h1 := roundHalfEven_rat_le N D hD
  have h2 := roundHalfEven_rat_ge N' D' hD'
  have hz1 : ((roundHalfEven N' D' : ℕ) : ℚ) + 1 ≤ (roundHalfEven N D : ℕ) := by
    exact_mod_cast hlt
  have e1 : ((roundHalfEven N D : ℕ) : ℚ) = N / D + 1 / 2 := le_antisymm h1 (by linarith)
  have e2 : ((roundHalfEven N' D' : ℕ) : ℚ) = N' / D' - 1 / 2 := le_antisymm (by linarith) h2
  have t1 : 2 * roundHalfEven N D * D = 2 * N + D := by
    have tq : ((2 * roundHalfEven N D * D : ℕ) : ℚ) = ((2 * N + D : ℕ) : ℚ) := by
      push_cast
      rw [e1]
      field_simp
      ring
    exact_mod_cast tq
  have t2 : 2 * N' = 2 * roundHalfEven N' D' * D' + D' := by
    have tq : ((2 * N' : ℕ) : ℚ) = ((2 * roundHalfEven N' D' * D' + D' : ℕ) : ℚ) := by
      push_cast
      rw [e2]
      field_simp
      ring
    exact_mod_cast tq
  have p1 : roundHalfEven N D % 2 = 0 :=
    (roundHalfEven_nat_bounds N D hD).2.2 (Or.inl t1)
  have p2 : roundHalfEven N' D' % 2 = 0 :=
    (roundHalfEven_nat_bounds N' D' hD').2.2 (Or.inr t2)
  have hsucc : roundHalfEven N D = roundHalfEven N' D' + 1 := by
    have : ((roundHalfEven N D : ℕ) : ℚ) = ((roundHalfEven N' D' : ℕ) : ℚ) + 1 := by
      rw [e1, e2]
      linarith
    exact_mod_cast this
  omega

theorem floorLog2_mono (N D N' D' : ℕ) (hN : 1 ≤ N) (hD : 1 ≤ D)
    (hN' : 1 ≤ N') (hD' : 1 ≤ D') (h : (N : ℚ) / D ≤ (N' : ℚ) / D') :
    floorLog2 N D ≤ floorLog2 N' D' := by
  obtain ⟨l1, _⟩ := floorLog2_spec N D hN hD
  obtain ⟨_, u2⟩ := floorLog2_spec N' D' hN' hD'
  by_contra hlt
  push_neg at hlt
  have : (2 : ℚ) ^ (floorLog2 N' D' + 1) ≤ 2 ^ floorLog2 N D :=
    zpow_le_zpow_right₀ (by norm_num) (by omega)
  linarith

theorem fval_roundPosRat_mono (N D N' D' : ℕ) (hN : 1 ≤ N) (hD : 1 ≤ D)
    (hN' : 1 ≤ N') (hD' : 1 ≤ D') (h : (N : ℚ) / D ≤ (N' : ℚ) / D') :
    fval (roundPosRat N D) ≤ fval (roundPosRat N' D') := by
  have hk := floorLog2_mono N D N' D' hN hD hN' hD' h
  rcases eq_or_lt_of_le hk with heq | hklt
  · have hm : (roundPosRat N D).1 ≤ (roundPosRat N' D').1 := by
      rw [roundPosRat_fst N D hN, roundPosRat_fst N' D' hN']
      apply roundHalfEven_mono_rat _ _ _ _
        (scaledPair_snd_pos N D _ hD) (scaledPair_snd_pos N' D' _ hD')
      rw [scaledPair_div_eq N D _ hD, scaledPair_div_eq N' D' _ hD', heq]
      exact mul_le_mul_of_nonneg_right h (le_of_lt (zpow_pos (by norm_num) _))
    have hexp : (2 : ℚ) ^ (floorLog2 N D - 52) = 2 ^ (floorLog2 N' D' - 52) := by
      rw [heq]
    rw [fval_roundPosRat_eq N D hN, fval_roundPosRat_eq N' D' hN', hexp]
    exact mul_le_mul_of_nonneg_right (by exact_mod_cast hm)
      (le_of_lt (zpow_pos (by norm_num) _))
  · have hle := roundPosRat_fst_le N D hN hD
    have hge := roundPosRat_fst_ge N' D' hN' hD'
    rw [fval_roundPosRat_eq N D hN, fval_roundPosRat_eq N' D' hN']
    calc ((roundPosRat N D).1 : ℚ) * 2 ^ (floorLog2 N D - 52)
        ≤ ((2 ^ 53 : ℕ) : ℚ) * 2 ^ (floorLog2 N D - 52) :=
          mul_le_mul_of_nonneg_right (by exact_mod_cast hle)
            (le_of_lt (zpow_pos (by norm_num) _))
      _ = 2 ^ (floorLog2 N D + 1) := by
          rw [Nat.cast_pow, Nat.cast_ofNat,
            show ((2:ℚ) ^ (53:ℕ)) = (2:ℚ) ^ ((53:ℕ):ℤ) from (zpow_natCast 2 53).symm,
            ← zpow_add₀ (by norm_num : (2:ℚ) ≠ 0)]
          congr 1
          push_cast
          ring
      _ ≤ 2 ^ floorLog2 N' D' := zpow_le_zpow_right₀ (by norm_num) (by omega)
      _ = ((2 ^ 52 : ℕ) : ℚ) * 2 ^ (floorLog2 N' D' - 52) := by
          rw [Nat.cast_pow, Nat.cast_ofNat,
            show ((2:ℚ) ^ (52:ℕ)) = (2:ℚ) ^ ((52:ℕ):ℤ) from (zpow_natCast 2 52).symm,
            ← zpow_add₀ (by norm_num : (2:ℚ) ≠ 0)]
          congr 1
          push_cast
          ring
      _ ≤ ((roundPosRat N' D').1 : ℚ) * 2 ^ (floorLog2 N' D' - 52) :=
          mul_le_mul_of_nonneg_right (by exact_mod_cast hge)
            (le_of_lt (zpow_pos (by norm_num) _))

theorem mulPair_fst_pos (x : ℕ × ℤ) (hx : 1 ≤ x.1) : 1 ≤ (mulPair x).1 := by
  unfold mulPair
  split_ifs
  · exact Nat.one_le_iff_ne_zero.mpr
      (Nat.mul_ne_zero (Nat.mul_ne_zero (by omega) (by omega))
        (Nat.pos_iff_ne_zero.mp (Nat.pos_pow_of_pos _ (by omega))))
  · exact Nat.one_le_iff_ne_zero.mpr (Nat.mul_ne_zero (by omega) (by omega))

theorem mulPair_snd_pos (x : ℕ × ℤ) : 1 ≤ (mulPair x).2 := by
  unfold mulPair
  split_ifs
  · exact le_rfl
  · exact Nat.pos_pow_of_pos _ (by omega)

theorem mulPair_div_eq (x : ℕ × ℤ) :
    ((mulPair x).1 : ℚ) / (mulPair x).2 = 100 * fval x := by
  unfold mulPair fval
  split_ifs with he
  · have hp : ((2:ℚ) ^ x.2) = 2 ^ x.2.toNat := by
      rw [← zpow_natCast, Int.toNat_of_nonneg he]
    push_cast
    rw [hp]
    ring
  · have hp : ((2:ℚ) ^ x.2) = (2 ^ (-x.2).toNat)⁻¹ := by
      rw [← zpow_natCast, Int.toNat_of_nonneg (by omega), zpow_neg, inv_inv]
    push_cast
    rw [hp]
    field_simp
    ring

theorem truncFloat_eq_floor (x : ℕ × ℤ) : truncFloat x = ⌊fval x⌋₊ := by
  unfold truncFloat fval
  split_ifs with he
  · have hp : ((2:ℚ) ^ x.2) = ((2 ^ x.2.toNat : ℕ) : ℚ) := by
      push_cast
      rw [← zpow_natCast, Int.toNat_of_nonneg he]
    rw [hp, ← Nat.cast_mul, Nat.floor_natCast]
  · have hp : ((2:ℚ) ^ x.2) = (((2 ^ (-x.2).toNat : ℕ)) : ℚ)⁻¹ := by
      push_cast
      rw [← zpow_natCast, Int.toNat_of_nonneg (by omega), zpow_neg, inv_inv]
    rw [hp, ← div_eq_mul_inv, Nat.floor_div_nat, Nat.floor_natCast]

theorem fval_nonneg (x : ℕ × ℤ) : 0 ≤ fval x := by
  unfold fval
  positivity

theorem matchScore_zero (t : ℕ) : matchScore 0 t = 0 := rfl

theorem fdiv_err (c t : ℕ) (hc1 : 1 ≤ c) (hct : c ≤ t) :
    fval (fdiv c t) ≤ (c : ℚ) / t + 2 ^ (-(53:ℤ)) ∧
    (c : ℚ) / t - 2 ^ (-(53:ℤ)) ≤ fval (fdiv c t) := by
  have ht1 : 1 ≤ t := le_trans hc1 hct
  have ht0 : (0:ℚ) < t := by exact_mod_cast Nat.lt_of_lt_of_le Nat.zero_lt_one ht1
  have hle1 : (c:ℚ)/t ≤ 1 := by
    rw [div_le_one ht0]
    exact_mod_cast hct
  have hk0 : floorLog2 c t ≤ 0 := by
    obtain ⟨l, _⟩ := floorLog2_spec c t hc1 ht1
    by_contra hpos
    push_neg at hpos
    have h2 : (2:ℚ)^(1:ℤ) ≤ 2^(floorLog2 c t) :=
      zpow_le_zpow_right₀ (by norm_num) (by omega)
    have h2' : (2:ℚ)^(1:ℤ) = 2 := by norm_num
    linarith
  have herr : (2:ℚ) ^ (floorLog2 c t - 53) ≤ 2 ^ (-(53:ℤ)) :=
    zpow_le_zpow_right₀ (by norm_num) (by omega)
  have hle := fval_roundPosRat_le c t hc1 ht1
  have hge := fval_roundPosRat_ge c t hc1 ht1
  constructor
  · show fval (roundPosRat c t) ≤ (c : ℚ) / t + 2 ^ (-(53:ℤ))
    generalize (c : ℚ) / (t : ℚ) = q at hle ⊢
    linarith [hle, herr]
  · show (c : ℚ) / t - 2 ^ (-(53:ℤ)) ≤ fval (roundPosRat c t)
    generalize (c : ℚ) / (t : ℚ) = q at hge ⊢
    linarith [hge, herr]

theorem fmul100_err (x : ℕ × ℤ) (hx : 1 ≤ x.1) (hv : fval x ≤ 2) :
    fval (fmul100 x) ≤ 100 * fval x + 2 ^ (-(45:ℤ)) ∧
    100 * fval x - 2 ^ (-(45:ℤ)) ≤ fval (fmul100 x) := by
  have hN := mulPair_fst_pos x hx
  have hD := mulPair_snd_pos x
  have hdiv := mulPair_div_eq x
  have hk : floorLog2 (mulPair x).1 (mulPair x).2 ≤ 8 := by
    obtain ⟨l, _⟩ := floorLog2_spec (mulPair x).1 (mulPair x).2 hN hD
    rw [hdiv] at l
    by_contra hgt
    push_neg at hgt
    have h2 : (2:ℚ)^(9:ℤ) ≤ 2^(floorLog2 (mulPair x).1 (mulPair x).2) :=
      zpow_le_zpow_right₀ (by norm_num) (by omega)
    have h2' : (2:ℚ)^(9:ℤ) = 512 := by norm_num
    linarith
  have herr : (2:ℚ) ^ (floorLog2 (mulPair x).1 (mulPair x).2 - 53) ≤ 2 ^ (-(45:ℤ)) :=
    zpow_le_zpow_right₀ (by norm_num) (by omega)
  have hle := fval_roundPosRat_le (mulPair x).1 (mulPair x).2 hN hD
  have hge := fval_roundPosRat_ge (mulPair x).1 (mulPair x).2 hN hD
  rw [hdiv] at hle hge
  exact ⟨by unfold fmul100; linarith, by unfold fmul100; linarith⟩

theorem matchScore_bounds (c t : ℕ) (hc : c ≤ t) (ht : 1 ≤ t) :
    matchScore c t ≤ 100 ∧
    100 * c / t ≤ matchScore c t + 1 ∧
    matchScore c t ≤ 100 * c / t + 1 := by
  rcases Nat.eq_zero_or_pos c with rfl | hc1
  · rw [matchScore_zero]
    have h0 : 100 * 0 / t = 0 := by simp
    omega
  · have ht0 : (0:ℚ) < t := by exact_mod_cast Nat.lt_of_lt_of_le Nat.zero_lt_one ht
    have hle1 : (c:ℚ)/t ≤ 1 := by
      rw [div_le_one ht0]
      exact_mod_cast hc
    obtain ⟨hA, hB⟩ := fdiv_err c t hc1 hc
    have e53 : (2:ℚ) ^ (-(53:ℤ)) = 1/9007199254740992 := by norm_num
    have e45 : (2:ℚ) ^ (-(45:ℤ)) = 1/35184372088832 := by norm_num
    rw [e53] at hA hB
    have hv2le : fval (fdiv c t) ≤ 2 := by linarith [hA, hle1]
    have hx : 1 ≤ (fdiv c t).1 :=
      le_trans (Nat.pos_pow_of_pos 52 (by omega)) (roundPosRat_fst_ge c t hc1 ht)
    obtain ⟨hC, hD⟩ := fmul100_err (fdiv c t) hx hv2le
    rw [e45] at hC hD
    have hqeq : ((100 * c : ℕ) : ℚ) / t = 100 * ((c:ℚ)/t) := by
      push_cast
      ring
    have hnn : (0:ℚ) ≤ ((100 * c : ℕ) : ℚ) / t := by positivity
    have hup : fval (fmul100 (fdiv c t)) ≤ ((100 * c : ℕ) : ℚ)/t + 1 := by
      rw [hqeq]
      linarith [hC, hA]
    have hup101 : fval (fmul100 (fdiv c t)) < 101 := by
      linarith [hC, hA, hle1]
    have hdown : ((100 * c : ℕ) : ℚ)/t ≤ fval (fmul100 (fdiv c t)) + 1 := by
      rw [hqeq]
      linarith [hB, hD]
    have hfl : matchScore c t = ⌊fval (fmul100 (fdiv c t))⌋₊ := truncFloat_eq_floor _
    have hnatfl : ⌊((100 * c : ℕ) : ℚ)/t⌋₊ = 100 * c / t := by
      rw [Nat.floor_div_nat, Nat.floor_natCast]
    have hvnn : 0 ≤ fval (fmul100 (fdiv c t)) := fval_nonneg _
    refine ⟨?_, ?_, ?_⟩
    · rw [hfl]
      have h101 : ⌊fval (fmul100 (fdiv c t))⌋₊ < 101 := (Nat.floor_lt hvnn).mpr hup101
      omega
    · rw [hfl]
      have h1 : ⌊((100 * c : ℕ) : ℚ)/t⌋₊ ≤ ⌊fval (fmul100 (fdiv c t)) + 1⌋₊ :=
        Nat.floor_le_floor hdown
      rw [hnatfl, Nat.floor_add_one hvnn] at h1
      omega
    · rw [hfl]
      have h1 : ⌊fval (fmul100 (fdiv c t))⌋₊ ≤ ⌊((100 * c : ℕ) : ℚ)/t + 1⌋₊ :=
        Nat.floor_le_floor hup
      rw [Nat.floor_add_one hnn, hnatfl] at h1
      omega

theorem matchScore_mono (c c' t : ℕ) (h1 : c ≤ c') (_h2 : c' ≤ t) (ht : 1 ≤ t) :
    matchScore c t ≤ matchScore c' t := by
  rcases Nat.eq_zero_or_pos c with rfl | hc1
  · rw [matchScore_zero]
    exact Nat.zero_le _
  · have hc'1 : 1 ≤ c' := le_trans hc1 h1
    have ht0 : (0:ℚ) < t := by exact_mod_cast Nat.lt_of_lt_of_le Nat.zero_lt_one ht
    have hdivle : (c:ℚ)/t ≤ (c':ℚ)/t := by
      gcongr

    have hv1 : fval (fdiv c t) ≤ fval (fdiv c' t) :=
      fval_roundPosRat_mono c t c' t hc1 ht hc'1 ht hdivle
    have hx : 1 ≤ (fdiv c t).1 :=
      le_trans (Nat.pos_pow_of_pos 52 (by omega)) (roundPosRat_fst_ge c t hc1 ht)
    have hx' : 1 ≤ (fdiv c' t).1 :=
      le_trans (Nat.pos_pow_of_pos 52 (by omega)) (roundPosRat_fst_ge c' t hc'1 ht)
    have hv2 : fval (fmul100 (fdiv c t)) ≤ fval (fmul100 (fdiv c' t)) := by
      unfold fmul100
      apply fval_roundPosRat_mono _ _ _ _ (mulPair_fst_pos _ hx) (mulPair_snd_pos _)
        (mulPair_fst_pos _ hx') (mulPair_snd_pos _)
      rw [mulPair_div_eq, mulPair_div_eq]
      linarith [hv1]
    show truncFloat (fmul100 (fdiv c t)) ≤ truncFloat (fmul100 (fdiv c' t))
    rw [truncFloat_eq_floor, truncFloat_eq_floor]
    exact Nat.floor_le_floor hv2

/-- Counterexample to C1: with 100 job skills of which 29 match,
`calculate_match` returns 28 while the exact floor is 29 — the Python
float product `(29/100)*100` rounds to just below 29 and `int` truncates
it to 28. -/
theorem counterexample_C1 :
    calculate_match (Finset.range 100) (Finset.range 29) = 28 ∧
    100 * ((Finset.range 100) ∩ (Finset.range 29)).card / (Finset.range 100).card = 29 := by
  constructor
  · decide
  · decide

/-- C1 (amended): the skill-overlap percentage is 0 for an empty job
skill set and always lies in 0..100, but for a non-empty job skill set it
is the binary64 evaluation of `(|∩|/|J|)*100` truncated, which can differ
from `floor(100*|∩|/|J|)` by at most one in either direction (and does
differ, e.g. 28 versus 29 at 29 of 100 skills). -/
theorem claim_C1 {α : Type} [DecidableEq α] (job_skills user_skills : Finset α) :
    (job_skills = ∅ → calculate_match job_skills user_skills = 0) ∧
    calculate_match job_skills user_skills ≤ 100 ∧
    (job_skills ≠ ∅ →
      100 * (job_skills ∩ user_skills).card / job_skills.card ≤
        calculate_match job_skills user_skills + 1 ∧
      calculate_match job_skills user_skills ≤
        100 * (job_skills ∩ user_skills).card / job_skills.card + 1) := by
  by_cases h : job_skills = ∅
  · refine ⟨fun _ => ?_, ?_, fun hne => absurd h hne⟩ <;>
      simp [calculate_match, h]
  · have hcard : 1 ≤ job_skills.card :=
      Finset.card_pos.mpr (Finset.nonempty_iff_ne_empty.mpr h)
    have hsub : (job_skills ∩ user_skills).card ≤ job_skills.card :=
      Finset.card_le_card Finset.inter_subset_left
    obtain ⟨b1, b2, b3⟩ := matchScore_bounds _ _ hsub hcard
    have hcm : calculate_match job_skills user_skills =
        matchScore (job_skills ∩ user_skills).card job_skills.card := by
      unfold calculate_match
      rw [if_neg h]
    exact ⟨fun hh => absurd hh h, by rw [hcm]; exact b1,
      fun _ => ⟨by rw [hcm]; exact b2, by rw [hcm]; exact b3⟩⟩

/-- Witness for C1 at concrete skill sets. -/
theorem witness_C1 :
    calculate_match (∅ : Finset ℕ) ({1} : Finset ℕ) = 0 ∧
    calculate_match ({0, 1} : Finset ℕ) ({0} : Finset ℕ) ≤ 100 ∧
    100 * (({0, 1} : Finset ℕ) ∩ ({0} : Finset ℕ)).card / ({0, 1} : Finset ℕ).card ≤
      calculate_match ({0, 1} : Finset ℕ) ({0} : Finset ℕ) + 1 :=
  ⟨(claim_C1 ∅ {1}).1 rfl, (claim_C1 {0, 1} {0}).2.1,
   ((claim_C1 {0, 1} {0}).2.2 (by decide)).1⟩

/-- C10: the skill-overlap percentage is monotone in the user's skill set
and depends only on the job skill set and its intersection with the user
skill set. -/
theorem claim_C10 {α : Type} [DecidableEq α] (J S T : Finset α) :
    (S ⊆ T → calculate_match J S ≤ calculate_match J T) ∧
    (J ∩ S = J ∩ T → calculate_match J S = calculate_match J T) := by
  constructor
  · intro hST
    by_cases h : J = ∅
    · simp [calculate_match, h]
    · have hcard : 1 ≤ J.card := Finset.card_pos.mpr (Finset.nonempty_iff_ne_empty.mpr h)
      unfold calculate_match
      rw [if_neg h, if_neg h]
      exact matchScore_mono _ _ _
        (Finset.card_le_card (Finset.inter_subset_inter (Finset.Subset.refl J) hST))
        (Finset.card_le_card Finset.inter_subset_left) hcard
  · intro hEq
    unfold calculate_match
    rw [hEq]

/-- Witness for C10 at concrete skill sets. -/
theorem witness_C10 :
    calculate_match ({0, 1} : Finset ℕ) ({0} : Finset ℕ) ≤
      calculate_match ({0, 1} : Finset ℕ) ({0, 1} : Finset ℕ) ∧
    calculate_match ({0, 1} : Finset ℕ) ({0, 5} : Finset ℕ) =
      calculate_match ({0, 1} : Finset ℕ) ({0, 7} : Finset ℕ) :=
  ⟨(claim_C10 {0, 1} {0} {0, 1}).1 (by decide),
   (claim_C10 {0, 1} {0, 5} {0, 7}).2 (by decide)⟩
